import Mathlib

/-!
Verification of the newsletter notification script (src/notification.py).

The script is modelled by a shallow embedding: every function of the source
is translated into an executable Lean definition over explicit data.
External effects are made explicit:
* the argument record produced by argparse becomes the structure `Args`
  (a file of usernames is represented by its list of lines, already
  stripped of trailing newline characters, matching the read loop);
* Python exceptions (IndexError, RuntimeError, SystemExit) become explicit
  constructors of result types;
* the Slack API becomes explicit response values (`SlackResp`) consumed by
  a step function, and a driver that replays a scripted list of responses;
* printed output becomes an explicit list of lines.

Python specifics are modelled as follows:
* truthiness of optional strings: `None` and the empty string are falsy;
* `set()` iteration order is unspecified in Python; the model fixes it to
  insertion order (`pySet` keeps the first occurrence).  Statements that
  depend on the relative order of names equal under case folding are
  therefore determined only up to that tie order;
* `sorted(key=str.casefold)` is a stable sort by the case-folded key; it is
  modelled by `List.insertionSort` with the total preorder `nameLe`
  (Mathlib insertion sort is stable, and a stable sort nondecreasing in
  the key is unique, so any correct model agrees with this one);
* `str.casefold` is modelled as per-character lowercasing, which agrees
  with Python on ASCII data;
* comparison of strings is by code points (`lexLe` on `Char.toNat`).
-/

/-! ## Python-style string and list primitives -/

/-- Case folding of a string, modelled as per-character lowercasing. -/
def casefold (s : String) : String := String.mk (s.data.map Char.toLower)

/-- Boolean lexicographic comparison of character lists by code point,
modelling the comparison that Python uses on the case-folded sort keys. -/
def lexLe : List Char → List Char → Bool
  | [], _ => true
  | _ :: _, [] => false
  | a :: as, b :: bs =>
    if a.toNat < b.toNat then true
    else if b.toNat < a.toNat then false
    else lexLe as bs

/-- Sort-key order used by `sorted(key=str.casefold)`: compare the
case-folded strings lexicographically. -/
def nameLe (a b : String) : Prop := lexLe (casefold a).data (casefold b).data = true

instance : DecidableRel nameLe := fun a b =>
  inferInstanceAs (Decidable (lexLe (casefold a).data (casefold b).data = true))

/-- Membership test with first-occurrence insertion, modelling adding one
element to a Python `set` whose iteration order is fixed to insertion
order. -/
def addUnique (l : List String) (x : String) : List String :=
  if x ∈ l then l else l ++ [x]

/-- Deduplication by a Python `set`, iteration order fixed to insertion
order. -/
def pySet (l : List String) : List String := l.foldl addUnique []

/-- Removal of the first occurrence of an element, modelling Python
`list.remove` (the script only calls it when the element is present). -/
def pyRemove (x : String) : List String → List String
  | [] => []
  | y :: ys => if y = x then ys else y :: pyRemove x ys

/-- Substring test on character lists, modelling the Python `in` operator
on strings: `matchesAt l p` holds when `p` is an initial segment of `l`. -/
def matchesAt : List Char → List Char → Bool
  | _, [] => true
  | [], _ :: _ => false
  | c :: cs, p :: ps => c = p && matchesAt cs ps

/-- Substring search on character lists (any position). -/
def containsChars (p : List Char) : List Char → Bool
  | [] => matchesAt [] p
  | c :: cs => matchesAt (c :: cs) p || containsChars p cs

/-- Python `pat in s` on strings. -/
def pyIn (pat s : String) : Bool := containsChars pat.data s.data

/-- Truthiness of an optional string in Python: `None` and `""` are falsy. -/
def truthyStr : Option String → Bool
  | none => false
  | some s => !(s = "")

/-! ## Option consolidation (`class Options`) -/

/-- Parsed command-line arguments as produced by argparse.
`users` is `none` when `--users` was not given; `user_list` holds the lines
of the `--user_list` file (trailing newlines stripped, as in the read
loop), or `none` when the option was not given. -/
structure Args where
  users : Option (List String)
  user_list : Option (List String)
  url : Option String
  deadline : Option String
  message : Option String
  dry : Bool
deriving DecidableEq, Repr

/-- Outcome of `Options.store_args`: a usage error (argparse
`self.error`, which exits with a usage message), a successful run with the
normalized username list, or an uncaught `IndexError` raised by
`_normalize_usernames` on an empty username. -/
inductive StoreResult
  | usageError (msg : String)
  | ok (usernames : List String)
  | crash
deriving DecidableEq, Repr

/-- Model of `Options._add_command_line_users` followed by
`Options._add_users_from_file` (`Options._compile_lists`): command-line
users first, then the lines of the user-list file. -/
def Options.compile_lists (a : Args) : List String :=
  (match a.users with
    | some us => us
    | none => []) ++
  (match a.user_list with
    | some ls => ls
    | none => [])

/-- Normalization of one username, modelling the loop body of
`Options._normalize_usernames`: `user[0]` raises `IndexError` (modelled by
`none`) on the empty string; a leading sigil character is stripped;
otherwise the name is kept unchanged. -/
def stripName (s : String) : Option String :=
  match s.data with
  | [] => none
  | c :: cs => if c = '@' then some (String.mk cs) else some s

/-- Normalization of every username in order; the first empty username
raises, which poisons the whole run. -/
def stripAll : List String → Option (List String)
  | [] => some []
  | s :: rest =>
    match stripName s with
    | none => none
    | some t =>
      match stripAll rest with
      | none => none
      | some ts => some (t :: ts)

/-- Model of `Options._normalize_usernames`: strip each name, deduplicate
through a `set`, and sort by the case-folded key with a stable sort. -/
def Options.normalize_usernames (l : List String) : Option (List String) :=
  (stripAll l).map (fun ts => List.insertionSort nameLe (pySet ts))

/-- Model of `Options.store_args` after `parse_args`: compile the username
list, reject an empty list, reject a missing message source (Python
truthiness of `url`, `deadline` and `message`), then normalize the
usernames. -/
def Options.store_args (a : Args) : StoreResult :=
  let usernames := Options.compile_lists a
  if usernames = [] then
    .usageError "At least one user or file of users is required."
  else if !((truthyStr a.url && truthyStr a.deadline) || truthyStr a.message) then
    .usageError "Either URL and deadline or message file is required."
  else
    match Options.normalize_usernames usernames with
    | some ns => .ok ns
    | none => .crash

/-! ## Message composer (`default_message`, `Message.__init__`) -/

/-- Module-level template `default_message` of the source, copied verbatim
(the placeholders are positional fields 0, 1 and 2 of `str.format`). -/
def default_message : String := ":robot_face:I am a bot, posting on behalf of {0}. Beep-boop:robot_face:

We’re presently preparing to publish a newsletter for this slack, and
some of the content you authored or participated or were named in has
been selected for potential inclusion.  While all the content is
public in channel history, we’re attempting to make the collation
process opt-in.

The current draft is at {1}

We would like you to agree to the inclusion of your content.  Ideally,
you’d provide blanket inclusion approval, but if you’d like to have
finer control, or even blanket exclusion, that’s perfectly acceptable
as well.

*If you don’t specifically approve your mentions/content by {2}, we will exclude it*.

{0} will see your response to this message, which can be as
short as “Ok” (just this newsletter), “Ok - always”, “No”, and
“No - always” (or :thumbsup:/:thumbsdown:).  (They are also available
to reword how your contribution was presented if you feel it doesn\x27t match
your intended message.)

If you have questions, please either reply here, or in #rands-newsletter if
they’re more general.

Thanks for being an active part of the community, and we look forward
to hearing from you soon.

:robot_face:Beep-boop. Bot out:robot_face:"

/-- Single left-to-right pass of `str.format` restricted to the positional
fields 0, 1 and 2 (the only fields in `default_message`); replacement text
is inserted verbatim and never rescanned, as in Python. -/
def formatChars (a0 a1 a2 : List Char) : List Char → List Char
  | [] => []
  | '{' :: '0' :: '}' :: rest => a0 ++ formatChars a0 a1 a2 rest
  | '{' :: '1' :: '}' :: rest => a1 ++ formatChars a0 a1 a2 rest
  | '{' :: '2' :: '}' :: rest => a2 ++ formatChars a0 a1 a2 rest
  | c :: rest => c :: formatChars a0 a1 a2 rest

/-- String-level wrapper for `t.format(a0, a1, a2)`. -/
def pyFormat (t a0 a1 a2 : String) : String :=
  String.mk (formatChars a0.data a1.data a2.data t.data)

/-- Rendering of an optional string argument inside `str.format`: Python
renders `None` as the text `"None"`. -/
def pyArg : Option String → String
  | none => "None"
  | some s => s

/-- Model of `Message.__init__`: the body is first set to the formatted
template (first name, url, deadline, in field order), and then overwritten
by the raw file contents when a message file is supplied. -/
def Message.init (message_file : Option String) (url deadline : Option String)
    (from_firstname : String) : String :=
  let m := pyFormat default_message from_firstname (pyArg url) (pyArg deadline)
  match message_file with
  | some contents => contents
  | none => m

/-! ## Dispatcher (`Message.send`) -/

/-- Record of a resolved recipient (`class User` of the source). -/
structure User where
  id : String
  name : String
deriving DecidableEq, Repr

/-- Arguments of one `chat.postMessage` call. -/
structure SendCall where
  channel : String
  text : String
  as_user : String
deriving DecidableEq, Repr

/-- Separator line printed in dry-run mode (`"-" * 80`). -/
def separator : String := String.mk (List.replicate 80 '-')

/-- Call record for one recipient. -/
def notifyCall (message from_username : String) (u : User) : SendCall :=
  ⟨u.id, message, from_username⟩

/-- Loop body of `Message.send` over the recipient list.  `resp i` is the
`ok` flag of the i-th `chat.postMessage` response.  The result is the
printed lines, the issued API calls, and `false` when a failed send raised
`RuntimeError` (the raw-response print of the failure branch is not part
of the line model). -/
def sendLoop (message from_username : String) (resp : Nat → Bool) (dry : Bool) :
    List User → Nat → List String × List SendCall × Bool
  | [], _ => ([], [], true)
  | u :: rest, i =>
    if dry then
      let t := sendLoop message from_username resp dry rest (i + 1)
      (("Would have notified @" ++ u.name) :: t.1, t.2.1, t.2.2)
    else
      if resp i then
        let t := sendLoop message from_username resp dry rest (i + 1)
        (("Notifying @" ++ u.name) :: t.1, notifyCall message from_username u :: t.2.1, t.2.2)
      else
        ([("Notifying @" ++ u.name)], [notifyCall message from_username u], false)

/-- Model of `Message.send`: in dry-run mode the body is printed framed by
separator lines and followed by a blank line before the loop. -/
def Message.send (message from_username : String) (resp : Nat → Bool)
    (users : List User) (dry : Bool) : List String × List SendCall × Bool :=
  let head : List String := if dry then [separator, message, separator, ""] else []
  let t := sendLoop message from_username resp dry users 0
  (head ++ t.1, t.2.1, t.2.2)

/-! ## Recipient directory client (`FetchUserIds`) -/

/-- Directory entry of a `users.list` page; `none` models an absent key. -/
structure Member where
  id : String
  name : Option String
  real_name : Option String
deriving DecidableEq, Repr

/-- Pagination metadata of a response; `next_cursor = none` models an
absent `next_cursor` key. -/
structure RespMetadata where
  next_cursor : Option String
deriving DecidableEq, Repr

/-- Response of one `users.list` call; optional fields model absent keys. -/
structure SlackResp where
  ok : Bool
  error : Option String
  members : Option (List Member)
  response_metadata : Option RespMetadata
deriving DecidableEq, Repr

/-- Rate-limit test of the source: an `error` key is present and contains
the text `ratelimited`. -/
def isRateLimited (r : SlackResp) : Bool :=
  match r.error with
  | some e => pyIn "ratelimited" e
  | none => false

/-- Per-entry matching of the source loop: the `name` field (defaulted to
the empty string when absent) is checked first, then `real_name`; a match
appends one `User` and removes the matched name from the outstanding
list. -/
def procMember (ids : List User) (users : List String) (m : Member) :
    List User × List String :=
  let name := m.name.getD ""
  let real_name := m.real_name.getD ""
  if name ∈ users then (ids ++ [⟨m.id, name⟩], pyRemove name users)
  else if real_name ∈ users then (ids ++ [⟨m.id, real_name⟩], pyRemove real_name users)
  else (ids, users)

/-- Processing of all entries of one page, in order. -/
def procMembers : List User → List String → List Member → List User × List String
  | ids, users, [] => (ids, users)
  | ids, users, m :: ms =>
    let st := procMember ids users m
    procMembers st.1 st.2 ms

/-- Outcome of one iteration of the `FetchUserIds` loop. -/
inductive StepOut
  | retry (delay : Nat)
  | fatalError
  | done (ids : List User) (users : List String)
  | nextPage (cursor : String) (ids : List User) (users : List String)
deriving DecidableEq, Repr

/-- One iteration of the `FetchUserIds` loop on the response of the current
page request: a non-ok rate-limited response sleeps 3 seconds and retries
the same page; any other non-ok response raises `RuntimeError`; an ok
response processes the members (when the key is present) and then decides
between returning and requesting the next page. -/
def FetchUserIds.step (ids : List User) (users : List String) (r : SlackResp) : StepOut :=
  if r.ok = false then
    if isRateLimited r then .retry 3 else .fatalError
  else
    let st := match r.members with
      | some ms => procMembers ids users ms
      | none => (ids, users)
    if st.2 = [] then .done st.1 st.2
    else
      match r.response_metadata with
      | none => .done st.1 st.2
      | some md =>
        match md.next_cursor with
        | none => .done st.1 st.2
        | some c => if c = "" then .done st.1 st.2 else .nextPage c st.1 st.2

/-- End state of a driven `FetchUserIds` run on a finite response script. -/
inductive DriveEnd
  | returned (ids : List User) (users : List String)
  | raised
  | starved
deriving DecidableEq, Repr

/-- Driver of the `FetchUserIds` loop on a scripted list of responses
(consumed in order, one per page request).  The first component collects
the cursor of every page request issued; `starved` marks a run that used
up the script (the real loop would keep requesting). -/
def FetchUserIds.drive : List SlackResp → String → List User → List String →
    List String × DriveEnd
  | [], c, _, _ => ([c], .starved)
  | r :: rs, c, ids, users =>
    match FetchUserIds.step ids users r with
    | .retry _ =>
      let t := FetchUserIds.drive rs c ids users
      (c :: t.1, t.2)
    | .fatalError => ([c], .raised)
    | .done a b => ([c], .returned a b)
    | .nextPage c2 a b =>
      let t := FetchUserIds.drive rs c2 a b
      (c :: t.1, t.2)

/-- Whole `FetchUserIds` call: the loop starts with an empty result list
and the empty cursor. -/
def FetchUserIds.run (script : List SlackResp) (users : List String) :
    List String × DriveEnd :=
  FetchUserIds.drive script "" [] users

/-! ## Order lemmas for the sort key -/

theorem lexLe_total : ∀ x y : List Char, lexLe x y = true ∨ lexLe y x = true := by
  intro x
  induction x with
  | nil => intro y; left; rfl
  | cons a as ih =>
    intro y
    cases y with
    | nil => right; rfl
    | cons b bs =>
      simp only [lexLe]
      rcases Nat.lt_trichotomy a.toNat b.toNat with h | h | h
      · left; simp [h]
      · have h1 : ¬ a.toNat < b.toNat := by omega
        have h2 : ¬ b.toNat < a.toNat := by omega
        simpa [h1, h2] using ih bs
      · right; simp [h]

theorem lexLe_trans :
    ∀ x y z : List Char, lexLe x y = true → lexLe y z = true → lexLe x z = true := by
  intro x
  induction x with
  | nil => intros; rfl
  | cons a as ih =>
    intro y z hxy hyz
    cases y with
    | nil => exact absurd hxy (by simp [lexLe])
    | cons b bs =>
      cases z with
      | nil => exact absurd hyz (by simp [lexLe])
      | cons c cs =>
        simp only [lexLe] at hxy hyz ⊢
        rcases Nat.lt_trichotomy b.toNat a.toNat with hba | hba | hba
        · rw [if_neg (by omega : ¬ a.toNat < b.toNat), if_pos hba] at hxy
          exact absurd hxy (by simp)
        · rcases Nat.lt_trichotomy c.toNat b.toNat with hcb | hcb | hcb
          · rw [if_neg (by omega : ¬ b.toNat < c.toNat), if_pos hcb] at hyz
            exact absurd hyz (by simp)
          · rw [if_neg (by omega : ¬ a.toNat < b.toNat),
                if_neg (by omega : ¬ b.toNat < a.toNat)] at hxy
            rw [if_neg (by omega : ¬ b.toNat < c.toNat),
                if_neg (by omega : ¬ c.toNat < b.toNat)] at hyz
            rw [if_neg (by omega : ¬ a.toNat < c.toNat),
                if_neg (by omega : ¬ c.toNat < a.toNat)]
            exact ih bs cs hxy hyz
          · rw [if_pos (by omega : a.toNat < c.toNat)]
        · rcases Nat.lt_trichotomy c.toNat b.toNat with hcb | hcb | hcb
          · rw [if_neg (by omega : ¬ b.toNat < c.toNat), if_pos hcb] at hyz
            exact absurd hyz (by simp)
          · rw [if_pos (by omega : a.toNat < c.toNat)]
          · rw [if_pos (by omega : a.toNat < c.toNat)]

instance : IsTotal String nameLe := ⟨fun x y => lexLe_total (casefold x).data (casefold y).data⟩

instance : IsTrans String nameLe := ⟨fun _ _ _ => lexLe_trans _ _ _⟩

/-! ## Lemmas about the set model -/

theorem mem_addUnique {l : List String} {x y : String} :
    y ∈ addUnique l x ↔ y ∈ l ∨ y = x := by
  unfold addUnique
  split
  · rename_i hx
    constructor
    · exact Or.inl
    · rintro (h | rfl)
      · exact h
      · exact hx
  · simp

theorem nodup_addUnique {l : List String} (h : l.Nodup) (x : String) :
    (addUnique l x).Nodup := by
  unfold addUnique
  split
  · exact h
  · rename_i hx
    simpa [List.nodup_append, h] using hx

theorem addUnique_of_not_mem {l : List String} {x : String} (h : ¬ x ∈ l) :
    addUnique l x = l ++ [x] := by
  simp [addUnique, h]

theorem nodup_pySet_aux :
    ∀ (l acc : List String), acc.Nodup → (l.foldl addUnique acc).Nodup := by
  intro l
  induction l with
  | nil => intro acc h; exact h
  | cons x xs ih =>
    intro acc h
    exact ih (addUnique acc x) (nodup_addUnique h x)

theorem nodup_pySet (l : List String) : (pySet l).Nodup :=
  nodup_pySet_aux l [] List.nodup_nil

theorem foldl_addUnique_of_nodup :
    ∀ (l acc : List String), (acc ++ l).Nodup → l.foldl addUnique acc = acc ++ l := by
  intro l
  induction l with
  | nil => intro acc _; simp
  | cons x xs ih =>
    intro acc h
    have hx : ¬ x ∈ acc := by
      intro hmem
      have := List.disjoint_of_nodup_append h
      exact this hmem (List.mem_cons_self x xs)
    rw [List.foldl_cons, addUnique_of_not_mem hx, ih (acc ++ [x]) (by simpa using h)]
    simp

theorem pySet_of_nodup {l : List String} (h : l.Nodup) : pySet l = l := by
  simpa using foldl_addUnique_of_nodup l [] (by simpa using h)

theorem mem_pySet_aux :
    ∀ (l acc : List String) (y : String),
      y ∈ l.foldl addUnique acc ↔ y ∈ acc ∨ y ∈ l := by
  intro l
  induction l with
  | nil => intro acc y; simp
  | cons x xs ih =>
    intro acc y
    rw [List.foldl_cons, ih]
    rw [mem_addUnique]
    constructor
    · rintro ((h | rfl) | h)
      · exact Or.inl h
      · exact Or.inr (List.mem_cons_self _ _)
      · exact Or.inr (List.mem_cons_of_mem _ h)
    · rintro (h | h)
      · exact Or.inl (Or.inl h)
      · rcases List.mem_cons.mp h with rfl | h
        · exact Or.inl (Or.inr rfl)
        · exact Or.inr h

theorem mem_pySet {l : List String} {y : String} : y ∈ pySet l ↔ y ∈ l := by
  simpa using mem_pySet_aux l [] y

/-! ## Lemmas about `pyRemove` -/

theorem pyRemove_sublist (x : String) : ∀ l : List String, (pyRemove x l).Sublist l := by
  intro l
  induction l with
  | nil => simp [pyRemove]
  | cons y ys ih =>
    unfold pyRemove
    split
    · exact (List.sublist_cons_self y ys)
    · exact List.Sublist.cons₂ y ih

theorem pyRemove_nodup {x : String} {l : List String} (h : l.Nodup) :
    (pyRemove x l).Nodup :=
  (pyRemove_sublist x l).nodup h

theorem mem_of_mem_pyRemove {x y : String} {l : List String} (h : y ∈ pyRemove x l) :
    y ∈ l :=
  (pyRemove_sublist x l).subset h

theorem not_mem_pyRemove_self {x : String} :
    ∀ {l : List String}, l.Nodup → ¬ x ∈ pyRemove x l := by
  intro l
  induction l with
  | nil => intro _ h; simp [pyRemove] at h
  | cons y ys ih =>
    intro hnd h
    unfold pyRemove at h
    split at h
    · rename_i hyx
      subst hyx
      exact (List.nodup_cons.mp hnd).1 h
    · rename_i hyx
      rcases List.mem_cons.mp h with rfl | h
      · exact hyx rfl
      · exact ih (List.nodup_cons.mp hnd).2 h

/-! ## Lemmas about name normalization -/

theorem stripName_isSome {s : String} (h : s ≠ "") : (stripName s).isSome = true := by
  rcases hd : s.data with _ | ⟨c, cs⟩
  · exact absurd (String.ext hd) h
  · simp only [stripName, hd]
    split <;> rfl

theorem stripName_of_no_sigil {s : String} {c : Char} {cs : List Char}
    (hd : s.data = c :: cs) (hc : c ≠ '@') : stripName s = some s := by
  simp [stripName, hd, hc]

theorem stripName_sigil {s : String} {cs : List Char} (hd : s.data = '@' :: cs) :
    stripName s = some (String.mk cs) := by
  simp [stripName, hd]

theorem stripAll_isSome :
    ∀ l : List String, (∀ s ∈ l, s ≠ "") → (stripAll l).isSome = true := by
  intro l
  induction l with
  | nil => intro _; rfl
  | cons s rest ih =>
    intro h
    have h1 := stripName_isSome (h s (List.mem_cons_self s rest))
    have h2 := ih (fun t ht => h t (List.mem_cons_of_mem s ht))
    simp only [stripAll]
    rcases hx : stripName s with _ | t
    · rw [hx] at h1; simp at h1
    · rcases hy : stripAll rest with _ | ts
      · rw [hy] at h2; simp at h2
      · rfl

theorem stripAll_id :
    ∀ l : List String, (∀ s ∈ l, stripName s = some s) → stripAll l = some l := by
  intro l
  induction l with
  | nil => intro _; rfl
  | cons s rest ih =>
    intro h
    have h1 := h s (List.mem_cons_self s rest)
    have h2 := ih (fun t ht => h t (List.mem_cons_of_mem s ht))
    simp only [stripAll, h1, h2]

/-- Normalization applied to a list it already produced, whose names all
survive a further strip unchanged, is the identity: the names are already
deduplicated and stably sorted. -/
theorem normalize_usernames_of_normalized {l out : List String}
    (h : Options.normalize_usernames l = some out)
    (hclean : ∀ t ∈ out, stripName t = some t) :
    Options.normalize_usernames out = some out := by
  obtain ⟨ts, hts, hout⟩ :
      ∃ ts, stripAll l = some ts ∧ out = List.insertionSort nameLe (pySet ts) := by
    unfold Options.normalize_usernames at h
    cases hst : stripAll l with
    | none => rw [hst] at h; simp at h
    | some ts =>
      rw [hst] at h
      simp only [Option.map_some', Option.some.injEq] at h
      exact ⟨ts, rfl, h.symm⟩
  have hnd : out.Nodup := by
    rw [hout]
    exact ((List.perm_insertionSort nameLe (pySet ts)).nodup_iff).mpr (nodup_pySet ts)
  have hsorted : List.Sorted nameLe out := by
    rw [hout]
    exact List.sorted_insertionSort nameLe (pySet ts)
  unfold Options.normalize_usernames
  rw [stripAll_id out hclean]
  simp [pySet_of_nodup hnd, List.Sorted.insertionSort_eq hsorted]

/-! ## Lemmas about directory matching -/

theorem procMember_name_match (ids : List User) (users : List String) (m : Member)
    (h : (m.name.getD "") ∈ users) :
    procMember ids users m =
      (ids ++ [⟨m.id, m.name.getD ""⟩], pyRemove (m.name.getD "") users) := by
  simp [procMember, h]

theorem procMember_length (ids : List User) (users : List String) (m : Member) :
    (procMember ids users m).1.length ≤ ids.length + 1 := by
  simp only [procMember]
  split_ifs <;> simp

theorem procMember_shift (ids : List User) (users : List String) (m : Member) :
    procMember ids users m =
      (ids ++ (procMember [] users m).1, (procMember [] users m).2) := by
  simp only [procMember]
  split_ifs <;> simp

theorem procMembers_shift :
    ∀ (ms : List Member) (ids : List User) (users : List String),
      procMembers ids users ms =
        (ids ++ (procMembers [] users ms).1, (procMembers [] users ms).2) := by
  intro ms
  induction ms with
  | nil => intro ids users; simp [procMembers]
  | cons m ms ih =>
    intro ids users
    simp only [procMembers]
    rw [procMember_shift ids users m]
    rcases hm : procMember [] users m with ⟨n1, u1⟩
    simp only []
    rw [ih (ids ++ n1) u1, ih n1 u1]
    simp [List.append_assoc]

theorem procMembers_inv :
    ∀ (ms : List Member) (users : List String), users.Nodup →
      ((procMembers [] users ms).2.Sublist users) ∧
      (((procMembers [] users ms).1.map User.name).Nodup) ∧
      (∀ u ∈ (procMembers [] users ms).1,
        u.name ∈ users ∧ ¬ u.name ∈ (procMembers [] users ms).2) ∧
      ((procMembers [] users ms).1.length ≤ ms.length) := by
  intro ms
  induction ms with
  | nil =>
    intro users _
    exact ⟨List.Sublist.refl users, by simp [procMembers], by simp [procMembers], by simp [procMembers]⟩
  | cons m ms ih =>
    intro users hnd
    have key : ∀ n i : String, n ∈ users →
        ((procMembers [⟨i, n⟩] (pyRemove n users) ms).2.Sublist users) ∧
        (((procMembers [⟨i, n⟩] (pyRemove n users) ms).1.map User.name).Nodup) ∧
        (∀ u ∈ (procMembers [⟨i, n⟩] (pyRemove n users) ms).1,
          u.name ∈ users ∧ ¬ u.name ∈ (procMembers [⟨i, n⟩] (pyRemove n users) ms).2) ∧
        ((procMembers [⟨i, n⟩] (pyRemove n users) ms).1.length ≤ ms.length + 1) := by
      intro n i hmem
      have hnd2 : (pyRemove n users).Nodup := pyRemove_nodup hnd
      obtain ⟨ih1, ih2, ih3, ih4⟩ := ih (pyRemove n users) hnd2
      rw [procMembers_shift]
      have hnotmem : ¬ n ∈ pyRemove n users := not_mem_pyRemove_self hnd
      refine ⟨?_, ?_, ?_, ?_⟩
      · exact ih1.trans (pyRemove_sublist n users)
      · simp only [List.singleton_append, List.map_cons, List.nodup_cons]
        refine ⟨?_, ih2⟩
        intro hc
        obtain ⟨u, hu, hun⟩ := List.mem_map.mp hc
        exact hnotmem (hun ▸ (ih3 u hu).1)
      · intro u hu
        simp only [List.singleton_append, List.mem_cons] at hu
        rcases hu with rfl | hu
        · refine ⟨hmem, ?_⟩
          intro hc
          exact hnotmem (ih1.subset hc)
        · exact ⟨(pyRemove_sublist n users).subset (ih3 u hu).1, (ih3 u hu).2⟩
      · simp only [List.singleton_append, List.length_cons]
        omega
    by_cases h1 : (m.name.getD "") ∈ users
    · have hm : procMember [] users m =
          ([⟨m.id, m.name.getD ""⟩], pyRemove (m.name.getD "") users) := by
        simp [procMember, h1]
      have hk := key (m.name.getD "") m.id h1
      simpa only [procMembers, hm] using hk
    · by_cases h2 : (m.real_name.getD "") ∈ users
      · have hm : procMember [] users m =
            ([⟨m.id, m.real_name.getD ""⟩], pyRemove (m.real_name.getD "") users) := by
          simp [procMember, h1, h2]
        have hk := key (m.real_name.getD "") m.id h2
        simpa only [procMembers, hm] using hk
      · have hm : procMember [] users m = ([], users) := by
          simp [procMember, h1, h2]
        obtain ⟨ih1, ih2, ih3, ih4⟩ := ih users hnd
        refine ⟨?_, ?_, ?_, ?_⟩ <;>
          simp only [procMembers, hm, List.length_cons] <;>
          first
            | exact ih1
            | exact ih2
            | exact ih3
            | omega

/-! ## Lemmas about the dispatcher loop -/

theorem sendLoop_dry (message fu : String) (resp : Nat → Bool) :
    ∀ (users : List User) (i : Nat),
      sendLoop message fu resp true users i =
        (users.map (fun u => "Would have notified @" ++ u.name), [], true) := by
  intro users
  induction users with
  | nil => intro i; rfl
  | cons u rest ih =>
    intro i
    simp [sendLoop, ih (i + 1)]

theorem sendLoop_live_ok (message fu : String) (resp : Nat → Bool) :
    ∀ (users : List User) (i : Nat),
      (∀ j, j < users.length → resp (i + j) = true) →
      sendLoop message fu resp false users i =
        (users.map (fun u => "Notifying @" ++ u.name),
         users.map (notifyCall message fu), true) := by
  intro users
  induction users with
  | nil => intro i _; rfl
  | cons u rest ih =>
    intro i h
    have h0 : resp i = true := by simpa using h 0 (by simp)
    have hrec := ih (i + 1) (fun j hj => by
      have := h (j + 1) (by simpa using Nat.succ_lt_succ hj)
      rwa [show i + (j + 1) = i + 1 + j by omega] at this)
    simp [sendLoop, h0, hrec]

theorem sendLoop_live_fail (message fu : String) (resp : Nat → Bool) :
    ∀ (users : List User) (i k : Nat),
      k < users.length → resp (i + k) = false →
      (∀ j, j < k → resp (i + j) = true) →
      sendLoop message fu resp false users i =
        ((users.take (k + 1)).map (fun u => "Notifying @" ++ u.name),
         (users.take (k + 1)).map (notifyCall message fu), false) := by
  intro users
  induction users with
  | nil => intro i k hk _ _; simp at hk
  | cons u rest ih =>
    intro i k hk hfail hpre
    cases k with
    | zero =>
      have h0 : resp i = false := by simpa using hfail
      simp [sendLoop, h0]
    | succ k =>
      have h0 : resp i = true := by simpa using hpre 0 (by omega)
      have hrec := ih (i + 1) k (by simpa using Nat.lt_of_succ_lt_succ hk)
        (by rwa [show i + 1 + k = i + (k + 1) by omega])
        (fun j hj => by
          have := hpre (j + 1) (by omega)
          rwa [show i + (j + 1) = i + 1 + j by omega] at this)
      simp [sendLoop, h0, hrec]

/-! ## Lemmas about the template formatting -/

theorem formatChars_field0 (a0 a1 a2 rest) :
    formatChars a0 a1 a2 ('{' :: '0' :: '}' :: rest) = a0 ++ formatChars a0 a1 a2 rest := rfl

theorem formatChars_field1 (a0 a1 a2 rest) :
    formatChars a0 a1 a2 ('{' :: '1' :: '}' :: rest) = a1 ++ formatChars a0 a1 a2 rest := rfl

theorem formatChars_field2 (a0 a1 a2 rest) :
    formatChars a0 a1 a2 ('{' :: '2' :: '}' :: rest) = a2 ++ formatChars a0 a1 a2 rest := rfl

theorem formatChars_cons_ne (a0 a1 a2 : List Char) {c : Char} (h : c ≠ '{') (rest : List Char) :
    formatChars a0 a1 a2 (c :: rest) = c :: formatChars a0 a1 a2 rest := by
  rw [formatChars.eq_def]
  split <;> simp_all

theorem formatChars_append_lit (a0 a1 a2 : List Char) :
    ∀ (lit rest : List Char), (∀ c ∈ lit, c ≠ '{') →
      formatChars a0 a1 a2 (lit ++ rest) = lit ++ formatChars a0 a1 a2 rest := by
  intro lit
  induction lit with
  | nil => intro rest _; simp
  | cons c cs ih =>
    intro rest h
    have hc : c ≠ '{' := h c (List.mem_cons_self c cs)
    rw [List.cons_append, formatChars_cons_ne a0 a1 a2 hc,
      ih rest (fun x hx => h x (List.mem_cons_of_mem c hx))]
    rfl

/-! ## Literal segments of the template, between the format fields -/

/-- Text of `default_message` before the first field. -/
def msgA : String := ":robot_face:I am a bot, posting on behalf of "

/-- Text of `default_message` between field 0 and field 1. -/
def msgB : String := ". Beep-boop:robot_face:

We’re presently preparing to publish a newsletter for this slack, and
some of the content you authored or participated or were named in has
been selected for potential inclusion.  While all the content is
public in channel history, we’re attempting to make the collation
process opt-in.

The current draft is at "

/-- Text of `default_message` between field 1 and field 2. -/
def msgC : String := "

We would like you to agree to the inclusion of your content.  Ideally,
you’d provide blanket inclusion approval, but if you’d like to have
finer control, or even blanket exclusion, that’s perfectly acceptable
as well.

*If you don’t specifically approve your mentions/content by "

/-- Text of `default_message` between field 2 and the second field 0. -/
def msgD : String := ", we will exclude it*.

"

/-- Text of `default_message` after the second field 0. -/
def msgE : String := " will see your response to this message, which can be as
short as “Ok” (just this newsletter), “Ok - always”, “No”, and
“No - always” (or :thumbsup:/:thumbsdown:).  (They are also available
to reword how your contribution was presented if you feel it doesn\x27t match
your intended message.)

If you have questions, please either reply here, or in #rands-newsletter if
they’re more general.

Thanks for being an active part of the community, and we look forward
to hearing from you soon.

:robot_face:Beep-boop. Bot out:robot_face:"

set_option maxRecDepth 10000 in
theorem default_message_data_split :
    default_message.data =
      msgA.data ++ ('{' :: '0' :: '}' :: (msgB.data ++ ('{' :: '1' :: '}' :: (msgC.data ++
        ('{' :: '2' :: '}' :: (msgD.data ++ ('{' :: '0' :: '}' :: msgE.data))))))) := by
  rfl

set_option maxRecDepth 10000 in
theorem msgA_no_brace : ∀ c ∈ msgA.data, c ≠ '{' := by decide

set_option maxRecDepth 10000 in
theorem msgB_no_brace : ∀ c ∈ msgB.data, c ≠ '{' := by decide

set_option maxRecDepth 10000 in
theorem msgC_no_brace : ∀ c ∈ msgC.data, c ≠ '{' := by decide

set_option maxRecDepth 10000 in
theorem msgD_no_brace : ∀ c ∈ msgD.data, c ≠ '{' := by decide

set_option maxRecDepth 10000 in
theorem msgE_no_brace : ∀ c ∈ msgE.data, c ≠ '{' := by decide

theorem formatChars_lit (a0 a1 a2 : List Char) (l : List Char) (h : ∀ c ∈ l, c ≠ '{') :
    formatChars a0 a1 a2 l = l := by
  have h2 := formatChars_append_lit a0 a1 a2 l [] h
  have h3 : formatChars a0 a1 a2 [] = [] := rfl
  rw [List.append_nil] at h2
  rw [h2, h3, List.append_nil]

set_option maxRecDepth 10000 in
theorem pyFormat_default_message (f u d : String) :
    pyFormat default_message f u d =
      msgA ++ f ++ msgB ++ u ++ msgC ++ d ++ msgD ++ f ++ msgE := by
  apply String.ext
  show formatChars f.data u.data d.data default_message.data = _
  rw [default_message_data_split,
    formatChars_append_lit _ _ _ _ _ msgA_no_brace, formatChars_field0,
    formatChars_append_lit _ _ _ _ _ msgB_no_brace, formatChars_field1,
    formatChars_append_lit _ _ _ _ _ msgC_no_brace, formatChars_field2,
    formatChars_append_lit _ _ _ _ _ msgD_no_brace, formatChars_field0,
    formatChars_lit _ _ _ _ msgE_no_brace]
  simp [String.data_append, List.append_assoc]

theorem procMembers_append :
    ∀ (ms1 ms2 : List Member) (ids : List User) (users : List String),
      procMembers ids users (ms1 ++ ms2) =
        procMembers (procMembers ids users ms1).1 (procMembers ids users ms1).2 ms2 := by
  intro ms1
  induction ms1 with
  | nil => intro ms2 ids users; rfl
  | cons m ms ih =>
    intro ms2 ids users
    simp only [List.cons_append, procMembers]
    exact ih ms2 _ _

/-! ## Claim theorems -/

/-- C1, counterexample: a run supplying BOTH a message file and a complete
url+deadline pair passes validation with result `.ok` — it is not rejected
as a usage error, contradicting the exactly-one-message-source claim. -/
theorem c1_both_sources_not_rejected :
    Options.store_args ⟨some ["alice"], none, some "http://x", some "Monday", some "msg.txt", false⟩ =
      .ok ["alice"] := by
  decide

/-- C1 (amended): for every argument record with a nonempty compiled
username list, validation rejects with a usage error exactly when NEITHER
a complete (truthy) url+deadline pair NOR a message file is present, so a
run supplying both message sources passes; the check is pure argument
processing, performed before any network call in the script. -/
theorem c1_message_source_validation (a : Args) (h : Options.compile_lists a ≠ []) :
    (∃ m, Options.store_args a = .usageError m) ↔
      ¬ ((truthyStr a.url = true ∧ truthyStr a.deadline = true) ∨ truthyStr a.message = true) := by
  simp only [Options.store_args]
  rw [if_neg h]
  by_cases hc : ((truthyStr a.url && truthyStr a.deadline) || truthyStr a.message) = true
  · rw [if_neg (by simp [hc])]
    have hrhs : ((truthyStr a.url = true ∧ truthyStr a.deadline = true) ∨
        truthyStr a.message = true) := by
      simpa [Bool.or_eq_true, Bool.and_eq_true] using hc
    cases hn : Options.normalize_usernames (Options.compile_lists a) with
    | some ns => simp [hrhs]
    | none => simp [hrhs]
  · have hcf : ((truthyStr a.url && truthyStr a.deadline) || truthyStr a.message) = false := by
      rwa [Bool.not_eq_true] at hc
    rw [if_pos (by simp [hcf])]
    have hrhs : ¬ ((truthyStr a.url = true ∧ truthyStr a.deadline = true) ∨
        truthyStr a.message = true) := by
      simp only [← Bool.or_eq_true, ← Bool.and_eq_true, hcf]
      simp
    simp [hrhs]

/-- C1 witness: a run with a user but no message source is rejected with a
usage error. -/
theorem c1_message_source_validation_witness :
    ∃ m, Options.store_args ⟨some ["alice"], none, none, none, none, false⟩ = .usageError m :=
  (c1_message_source_validation ⟨some ["alice"], none, none, none, none, false⟩ (by decide)).mpr
    (by decide)

/-- C2, counterexample: normalizing ["@Bob", "bob", "Alice"] yields THREE
names, not the two claimed — deduplication is case-sensitive, so both bob
variants survive. -/
theorem c2_three_not_two :
    (Options.normalize_usernames ["@Bob", "bob", "Alice"]).map List.length = some 3 ∧
    (Options.normalize_usernames ["@Bob", "bob", "Alice"]).map List.length ≠ some 2 := by
  decide

/-- C2 (amended): normalizing ["@Bob", "bob", "Alice"] yields a
three-element list sorted case-insensitively: "Alice" first, followed by
both bob variants (their relative order is a tie under case folding and is
fixed by the model; Python leaves it to set iteration order). -/
theorem c2_normalize_bob_alice :
    ∃ l, Options.normalize_usernames ["@Bob", "bob", "Alice"] = some l ∧
      l.length = 3 ∧ l.head? = some "Alice" ∧ "Bob" ∈ l ∧ "bob" ∈ l := by
  exact ⟨["Alice", "Bob", "bob"], by decide, by decide, by decide, by decide, by decide⟩

/-- C3, counterexample: normalization is NOT idempotent — only one sigil
character is stripped, so ["@@a"] normalizes to ["@a"], and renormalizing
that output strips again, giving ["a"]. -/
theorem c3_not_idempotent :
    Options.normalize_usernames ["@@a"] = some ["@a"] ∧
    Options.normalize_usernames ["@a"] = some ["a"] ∧
    Options.normalize_usernames ["@a"] ≠ some ["@a"] := by
  decide

/-- C3 (amended): for every non-empty input name the stored name is the
input without its leading sigil character when one is present and the
input unchanged otherwise; and normalization is idempotent on runs whose
normalized output contains no name that is empty or still starts with a
sigil (equivalently, no input name started with a double sigil or was the
bare sigil). -/
theorem c3_strip_and_idempotent :
    (∀ (s : String) (c : Char) (cs : List Char), s.data = c :: cs →
      stripName s = some (if c = '@' then String.mk cs else s)) ∧
    (∀ l out, Options.normalize_usernames l = some out →
      (∀ t ∈ out, t ≠ "" ∧ t.data.head? ≠ some '@') →
      Options.normalize_usernames out = some out) := by
  constructor
  · intro s c cs hd
    by_cases hc : c = '@'
    · subst hc
      simp [stripName_sigil hd]
    · simp [stripName_of_no_sigil hd hc, hc]
  · intro l out h hclean
    apply normalize_usernames_of_normalized h
    intro t ht
    obtain ⟨ht1, ht2⟩ := hclean t ht
    rcases hd : t.data with _ | ⟨c, cs⟩
    · exact absurd (String.ext hd) ht1
    · have hc : c ≠ '@' := by
        intro hcc
        rw [hd, hcc] at ht2
        simp at ht2
      exact stripName_of_no_sigil hd hc

/-- C3 witness: one sigil-stripping instance and one idempotence instance
on the normalized output of ["@Alice", "bob"]. -/
theorem c3_strip_and_idempotent_witness :
    stripName "@bob" = some "bob" ∧
    Options.normalize_usernames ["Alice", "bob"] = some ["Alice", "bob"] := by
  refine ⟨?_, ?_⟩
  · simpa using c3_strip_and_idempotent.1 "@bob" '@' ['b', 'o', 'b'] rfl
  · exact c3_strip_and_idempotent.2 ["@Alice", "bob"] ["Alice", "bob"] (by decide) (by decide)

/-- C4: directory-entry matching invariants, for a deduplicated
outstanding list and any sequence of page entries: the accumulated result
list only grows by the new matches, each page of `ms` entries adds at most
`ms.length` recipients, the remaining outstanding list is a sublist of the
original, no name is matched twice (the matched names are distinct and
each is removed from the outstanding remainder), the short-identifier
field is checked before the real-name field (a `name` hit wins and removes
exactly that name), each single entry adds at most one recipient, and
processing concatenated pages equals processing them in sequence, so a
name matched on one page cannot be matched again on a later page. -/
theorem c4_match_invariants (ms : List Member) (ids : List User) (users : List String)
    (h : users.Nodup) :
    (procMembers ids users ms =
      (ids ++ (procMembers [] users ms).1, (procMembers [] users ms).2)) ∧
    ((procMembers [] users ms).1.length ≤ ms.length) ∧
    ((procMembers [] users ms).2.Sublist users) ∧
    (((procMembers [] users ms).1.map User.name).Nodup) ∧
    (∀ u ∈ (procMembers [] users ms).1,
      u.name ∈ users ∧ ¬ u.name ∈ (procMembers [] users ms).2) ∧
    (∀ (ids2 : List User) (users2 : List String) (m : Member),
      (m.name.getD "") ∈ users2 →
      procMember ids2 users2 m =
        (ids2 ++ [⟨m.id, m.name.getD ""⟩], pyRemove (m.name.getD "") users2)) ∧
    (∀ (ids2 : List User) (users2 : List String) (m : Member),
      (procMember ids2 users2 m).1.length ≤ ids2.length + 1) ∧
    (∀ ms2, procMembers ids users (ms ++ ms2) =
      procMembers (procMembers ids users ms).1 (procMembers ids users ms).2 ms2) := by
  obtain ⟨h1, h2, h3, h4⟩ := procMembers_inv ms users h
  exact ⟨procMembers_shift ms ids users, h4, h1, h2, h3,
    fun ids2 users2 m hm => procMember_name_match ids2 users2 m hm,
    fun ids2 users2 m => procMember_length ids2 users2 m,
    fun ms2 => procMembers_append ms ms2 ids users⟩

/-- C4 witness: a page whose first entry matches "alice" by real name and
whose second entry repeats "alice" in the name field resolves "alice" only
once, and the remainder is a sublist of the request. -/
theorem c4_match_invariants_witness :
    (((procMembers [] ["alice", "bob"]
        [⟨"U1", none, some "alice"⟩, ⟨"U2", some "alice", none⟩]).1.map User.name).Nodup) ∧
    ((procMembers [] ["alice", "bob"]
        [⟨"U1", none, some "alice"⟩, ⟨"U2", some "alice", none⟩]).2.Sublist ["alice", "bob"]) :=
  ⟨(c4_match_invariants [⟨"U1", none, some "alice"⟩, ⟨"U2", some "alice", none⟩] []
      ["alice", "bob"] (by decide)).2.2.2.1,
   (c4_match_invariants [⟨"U1", none, some "alice"⟩, ⟨"U2", some "alice", none⟩] []
      ["alice", "bob"] (by decide)).2.2.1⟩

/-- C5: a rate-limited (non-ok) page response makes the loop sleep the
fixed 3 seconds and re-request the SAME page — the cursor, the resolved
list and the outstanding list are all unchanged and pagination does not
terminate — while any other non-ok response raises and aborts the whole
run. -/
theorem c5_ratelimit_retry (c : String) (ids : List User) (users : List String)
    (r : SlackResp) (rs : List SlackResp) (hok : r.ok = false) :
    (isRateLimited r = true →
      FetchUserIds.step ids users r = .retry 3 ∧
      FetchUserIds.drive (r :: rs) c ids users =
        (c :: (FetchUserIds.drive rs c ids users).1,
         (FetchUserIds.drive rs c ids users).2)) ∧
    (isRateLimited r = false →
      FetchUserIds.step ids users r = .fatalError ∧
      FetchUserIds.drive (r :: rs) c ids users = ([c], .raised)) := by
  constructor
  · intro hrl
    have hstep : FetchUserIds.step ids users r = .retry 3 := by
      simp [FetchUserIds.step, hok, hrl]
    exact ⟨hstep, by simp [FetchUserIds.drive, hstep]⟩
  · intro hrl
    have hstep : FetchUserIds.step ids users r = .fatalError := by
      simp [FetchUserIds.step, hok, hrl]
    exact ⟨hstep, by simp [FetchUserIds.drive, hstep]⟩

/-- C5 witness: a rate-limited response retries with delay 3, and a
different failure is fatal. -/
theorem c5_ratelimit_retry_witness :
    FetchUserIds.step [] ["alice"] ⟨false, some "ratelimited", none, none⟩ = .retry 3 ∧
    FetchUserIds.step [] ["alice"] ⟨false, some "boom", none, none⟩ = .fatalError :=
  ⟨((c5_ratelimit_retry "" [] ["alice"] ⟨false, some "ratelimited", none, none⟩ [] rfl).1
      (by decide)).1,
   ((c5_ratelimit_retry "" [] ["alice"] ⟨false, some "boom", none, none⟩ [] rfl).2
      (by decide)).1⟩

/-- C6: on a successful page response, pagination returns (rather than
requesting another page) exactly when, after processing the page entries,
the outstanding list is empty, or the response carries no pagination
metadata at all, or the metadata carries no continuation cursor or an
empty one; and whenever it returns, it returns precisely the accumulated
recipients and the still-outstanding names as the unresolved remainder. -/
theorem c6_pagination_termination (ids : List User) (users : List String) (r : SlackResp)
    (hok : r.ok = true) :
    (∀ a b, FetchUserIds.step ids users r = .done a b →
      a = (procMembers ids users (r.members.getD [])).1 ∧
      b = (procMembers ids users (r.members.getD [])).2) ∧
    (FetchUserIds.step ids users r =
        .done (procMembers ids users (r.members.getD [])).1
              (procMembers ids users (r.members.getD [])).2 ↔
      ((procMembers ids users (r.members.getD [])).2 = [] ∨
       r.response_metadata = none ∨
       (∃ md, r.response_metadata = some md ∧
         (md.next_cursor = none ∨ md.next_cursor = some "")))) := by
  have hmem : (match r.members with
      | some ms => procMembers ids users ms
      | none => (ids, users)) = procMembers ids users (r.members.getD []) := by
    cases r.members <;> rfl
  by_cases he : (procMembers ids users (r.members.getD [])).2 = []
  · have hd : FetchUserIds.step ids users r =
        .done (procMembers ids users (r.members.getD [])).1
              (procMembers ids users (r.members.getD [])).2 := by
      simp [FetchUserIds.step, hok, hmem, he]
    refine ⟨?_, by simp [hd, he]⟩
    intro a b hab
    rw [hd] at hab
    simp only [StepOut.done.injEq] at hab
    exact ⟨hab.1.symm, hab.2.symm⟩
  · cases hmd : r.response_metadata with
    | none =>
      have hd : FetchUserIds.step ids users r =
          .done (procMembers ids users (r.members.getD [])).1
                (procMembers ids users (r.members.getD [])).2 := by
        simp [FetchUserIds.step, hok, hmem, he, hmd]
      refine ⟨?_, by simp [hd]⟩
      intro a b hab
      rw [hd] at hab
      simp only [StepOut.done.injEq] at hab
      exact ⟨hab.1.symm, hab.2.symm⟩
    | some md =>
      cases hnc : md.next_cursor with
      | none =>
        have hd : FetchUserIds.step ids users r =
            .done (procMembers ids users (r.members.getD [])).1
                  (procMembers ids users (r.members.getD [])).2 := by
          simp [FetchUserIds.step, hok, hmem, he, hmd, hnc]
        refine ⟨?_, iff_of_true hd (Or.inr (Or.inr ⟨md, rfl, Or.inl hnc⟩))⟩
        intro a b hab
        rw [hd] at hab
        simp only [StepOut.done.injEq] at hab
        exact ⟨hab.1.symm, hab.2.symm⟩
      | some cur =>
        by_cases hce : cur = ""
        · have hd : FetchUserIds.step ids users r =
              .done (procMembers ids users (r.members.getD [])).1
                    (procMembers ids users (r.members.getD [])).2 := by
            simp [FetchUserIds.step, hok, hmem, he, hmd, hnc, hce]
          refine ⟨?_, iff_of_true hd (Or.inr (Or.inr ⟨md, rfl, Or.inr (by rw [hnc, hce])⟩))⟩
          intro a b hab
          rw [hd] at hab
          simp only [StepOut.done.injEq] at hab
          exact ⟨hab.1.symm, hab.2.symm⟩
        · have hd : FetchUserIds.step ids users r =
              .nextPage cur (procMembers ids users (r.members.getD [])).1
                            (procMembers ids users (r.members.getD [])).2 := by
            simp [FetchUserIds.step, hok, hmem, he, hmd, hnc, hce]
          constructor
          · intro a b hab
            rw [hd] at hab
            simp at hab
          · apply iff_of_false
            · rw [hd]; simp
            · rintro (hcon | hcon | ⟨md2, hmd2, hcon⟩)
              · exact he hcon
              · simp at hcon
              · have hmd3 : md = md2 := by injection hmd2
                subst hmd3
                rcases hcon with hcon | hcon <;> rw [hnc] at hcon
                · simp at hcon
                · exact hce (by injection hcon)

/-- C6 witness: an ok response with no pagination metadata returns
immediately and the names still outstanding are the unresolved
remainder. -/
theorem c6_pagination_termination_witness :
    FetchUserIds.step [] ["alice"] ⟨true, none, none, none⟩ = .done [] ["alice"] :=
  (c6_pagination_termination [] ["alice"] ⟨true, none, none, none⟩ rfl).2.mpr
    (Or.inr (Or.inl rfl))

/-- C7: in live mode, when every send succeeds the dispatcher issues
exactly one `chat.postMessage` call per recipient, in list order, each
carrying the fixed body and attributed to the originating handle; when
the k-th send is the first to fail, the calls issued are exactly those for
the first k+1 recipients (the earlier ones are not rolled back and no
later recipient is contacted) and the run aborts. -/
theorem c7_live_send (message fu : String) (users : List User) (resp : Nat → Bool) :
    ((∀ i, i < users.length → resp i = true) →
      Message.send message fu resp users false =
        (users.map (fun u => "Notifying @" ++ u.name),
         users.map (notifyCall message fu), true)) ∧
    (∀ k, k < users.length → resp k = false → (∀ j, j < k → resp j = true) →
      Message.send message fu resp users false =
        ((users.take (k + 1)).map (fun u => "Notifying @" ++ u.name),
         (users.take (k + 1)).map (notifyCall message fu), false)) := by
  constructor
  · intro h
    have hl := sendLoop_live_ok message fu resp users 0 (fun j hj => by simpa using h j hj)
    simp [Message.send, hl]
  · intro k hk hkf hpre
    have hl := sendLoop_live_fail message fu resp users 0 k hk (by simpa using hkf)
      (fun j hj => by simpa using hpre j hj)
    simp [Message.send, hl]

/-- C7 witness: with two recipients and the second send failing, exactly
the two calls up to and including the failing one are issued and the run
aborts. -/
theorem c7_live_send_witness :
    Message.send "body" "@me" (fun i => decide (i = 0)) [⟨"U1", "alice"⟩, ⟨"U2", "bob"⟩] false =
      (([(⟨"U1", "alice"⟩ : User), ⟨"U2", "bob"⟩].take 2).map (fun u => "Notifying @" ++ u.name),
       ([(⟨"U1", "alice"⟩ : User), ⟨"U2", "bob"⟩].take 2).map (notifyCall "body" "@me"), false) :=
  (c7_live_send "body" "@me" [⟨"U1", "alice"⟩, ⟨"U2", "bob"⟩] (fun i => decide (i = 0))).2
    1 (by decide) (by decide) (by decide)

/-- C8: the message body is the raw file contents, unmodified and with no
substitution applied, whenever a message file is supplied; otherwise it is
the built-in template whose fields are filled positionally — field 0 with
the originating first name (twice), field 1 with the url, field 2 with the
deadline — as shown by the literal segmentation of the template. -/
theorem c8_message_body (c f u d : String) (url deadline : Option String) :
    (Message.init (some c) url deadline f = c) ∧
    (default_message = msgA ++ "{0}" ++ msgB ++ "{1}" ++ msgC ++ "{2}" ++ msgD ++ "{0}" ++ msgE) ∧
    (Message.init none (some u) (some d) f =
      msgA ++ f ++ msgB ++ u ++ msgC ++ d ++ msgD ++ f ++ msgE) := by
  refine ⟨rfl, ?_, ?_⟩
  · apply String.ext
    simp [String.data_append, List.append_assoc, default_message_data_split]
  · show pyFormat default_message f (pyArg (some u)) (pyArg (some d)) = _
    simp only [pyArg]
    exact pyFormat_default_message f u d

/-- C9: in dry-run mode, for every recipient list, no API call is issued;
the printed lines are the body exactly once, framed by the separator
lines and a blank line, followed by one would-have-notified line per
resolved recipient. -/
theorem c9_dry_run (message fu : String) (resp : Nat → Bool) (users : List User) :
    Message.send message fu resp users true =
      ([separator, message, separator, ""] ++
        users.map (fun u => "Would have notified @" ++ u.name), [], true) := by
  simp [Message.send, sendLoop_dry]

/-- C10: normalization succeeds on every username list whose names are all
non-empty, but an empty name — such as a blank line in the user-list
file — raises an uncaught IndexError instead of being stored or rejected:
a full run with a blank line crashes after passing validation. -/
theorem c10_empty_name_crash :
    (∀ l : List String, (∀ s ∈ l, s ≠ "") → (Options.normalize_usernames l).isSome = true) ∧
    Options.normalize_usernames [""] = none ∧
    Options.store_args ⟨none, some ["alice", ""], some "http://x", some "Monday", none, false⟩ =
      .crash := by
  refine ⟨?_, by decide, by decide⟩
  intro l h
  have hs := stripAll_isSome l h
  unfold Options.normalize_usernames
  rcases hst : stripAll l with _ | ts
  · rw [hst] at hs; simp at hs
  · rfl

/-- C10 witness: normalization succeeds on an all-non-empty list. -/
theorem c10_empty_name_crash_witness :
    (Options.normalize_usernames ["@Bob", "bob", "Alice"]).isSome = true :=
  c10_empty_name_crash.1 ["@Bob", "bob", "Alice"] (by decide)
